import Mathlib

/-!
Shallow embedding of `contract_risk_classifier.py` (Contract-Risk-Classification).

Python strings are modelled as `List Char`; `None`/`NaN` cells as `Option`.
The language-model agent is an opaque parameter `agent : Str → Str → Str`
mapping (cell text, column name) to the raw reply string `str(result)`
produced by `crew.kickoff()` in `analyze_text`.
-/

/-- Type of embedded Python strings. -/
abbrev Str := List Char

/-- Single-quote character (codepoint 39), used inside warning messages. -/
def squote : Char := Char.ofNat 39

/-- Test modelling membership of a character in Python's default strip set
(ASCII whitespace: space, tab, newline, carriage return, vertical tab,
form feed), expressed via codepoints 32, 9, 10, 13, 11, 12. -/
def isPySpace (c : Char) : Bool :=
  c.toNat == 32 || c.toNat == 9 || c.toNat == 10 || c.toNat == 13 ||
  c.toNat == 11 || c.toNat == 12

/-- Models Python `str.strip()` (with no argument): remove leading and
trailing whitespace. -/
def pyStrip (s : Str) : Str :=
  ((s.dropWhile isPySpace).reverse.dropWhile isPySpace).reverse

/-- Models Python `str.lower()` on ASCII text, using `Char.toLower`
(basic latin letters only, matching the replies the program handles). -/
def pyLower (s : Str) : Str := s.map Char.toLower

/-- Models the Python substring operator `needle in hay` on strings:
`true` iff `needle` occurs contiguously inside `hay` (the empty needle
occurs in every string). -/
def pyIn (needle : Str) : Str → Bool
  | [] => needle.isEmpty
  | c :: rest => needle.isPrefixOf (c :: rest) || pyIn needle rest

/-- Canonical label `"Yes"` (source line 100). -/
def yesLabel : Str := "Yes".data

/-- Canonical label `"No"` (source lines 102 and 106). -/
def noLabel : Str := "No".data

/-- Warning printed at source line 105:
`Warning: Unclear result from agent: '{result_str}'. Defaulting to 'No'`.
The apostrophes of the f-string are encoded via `squote`. -/
def unclearWarning (result_str : Str) : Str :=
  "Warning: Unclear result from agent: ".data ++ [squote] ++ result_str ++ [squote] ++
  ". Defaulting to ".data ++ [squote] ++ noLabel ++ [squote]

/-- Models the label-normalisation tail of `analyze_text`
(source lines 98-106): strip the raw reply, check for substring `"yes"`
in the lowercased text, then `"no"`, else warn and default to `"No"`.
Returns the canonical label together with the warning, if one is printed. -/
def normalize_result (reply : Str) : Str × Option Str :=
  let result_str := pyStrip reply
  if pyIn "yes".data (pyLower result_str) then (yesLabel, none)
  else if pyIn "no".data (pyLower result_str) then (noLabel, none)
  else (noLabel, some (unclearWarning result_str))

/-- Canonical label returned by `analyze_text` for a raw agent reply. -/
def normalize_label (reply : Str) : Str := (normalize_result reply).1

/-- Label produced by `analyze_text(agent, text, column_name)`
(source lines 66-106): the raw crew reply `agent text col` normalised. -/
def analyze_text_label (agent : Str → Str → Str) (text col : Str) : Str :=
  normalize_label (agent text col)

/-- One cell of the dataframe: `none` models a missing value
(`pd.isna`), `some s` a string value. -/
abbrev Cell := Option Str

/-- Models the `pandas.DataFrame` loaded by `pd.read_csv`: the header
names in order, and the rows, each cell aligned with `cols`. -/
structure DataFrame where
  cols : List Str
  rows : List (List Cell)
deriving DecidableEq

/-- Element of a list at an index, with an explicit default
(models positional access into rows and columns). -/
def nthD {α : Type} (d : α) : List α → Nat → α
  | [], _ => d
  | a :: _, 0 => a
  | _ :: l, n + 1 => nthD d l n

/-- Replace the element at an index, leaving the list unchanged when the
index is out of range (models in-place assignment `df.at[idx, col]`). -/
def setNth {α : Type} : List α → Nat → α → List α
  | [], _, _ => []
  | _ :: l, 0, v => v :: l
  | a :: l, n + 1, v => a :: setNth l n v

/-- Position of the first occurrence of a column name in the header
(pandas label-based access resolves a name to its first position). -/
def colIndex (cols : List Str) (col : Str) : Nat :=
  match cols with
  | [] => 0
  | c :: rest => if c = col then 0 else colIndex rest col + 1

/-- Cell of a dataframe at row `i`, column position `j`. -/
def cellAt (df : DataFrame) (i j : Nat) : Cell :=
  nthD none (nthD [] df.rows i) j

/-- Effect of the row loop body of `process_csv_file` on one cell of the
processed column (source lines 126-138): missing and empty-string cells
are skipped (`continue`), every other cell is overwritten with the
normalised label for the agent reply on its text. -/
def stepCell (agent : Str → Str → Str) (col : Str) (cell : Cell) : Cell :=
  match cell with
  | none => none
  | some s => if s = [] then some s else some (analyze_text_label agent s col)

/-- Warning printed at source line 120:
`Warning: Column '{col}' not found in CSV file.` -/
def missingColWarning (col : Str) : Str :=
  "Warning: Column ".data ++ [squote] ++ col ++ [squote] ++
  " not found in CSV file.".data

/-- One iteration of the column loop of `process_csv_file`
(source lines 118-138): a column name absent from the header yields a
warning and no change; an existing column has every row's cell passed
through `stepCell` in place. The state is (dataframe, warnings so far). -/
def processColumn (agent : Str → Str → Str) (st : DataFrame × List Str)
    (col : Str) : DataFrame × List Str :=
  if col ∈ st.1.cols then
    let j := colIndex st.1.cols col
    (⟨st.1.cols,
      st.1.rows.map (fun r => setNth r j (stepCell agent col (nthD none r j)))⟩,
     st.2)
  else
    (st.1, st.2 ++ [missingColWarning col])

/-- Models `process_csv_file(csv_path, text_columns)`
(source lines 108-141) on an already-loaded dataframe: the columns are
processed left to right, and the mutated dataframe is returned together
with the list of printed column warnings. -/
def process_csv_file (agent : Str → Str → Str) (df : DataFrame)
    (text_columns : List Str) : DataFrame × List Str :=
  text_columns.foldl (processColumn agent) (df, [])

/-- Models Python `col_input.split(",")`: split at every comma, keeping
empty pieces; the empty string yields `[""]`. -/
def splitComma : Str → List Str
  | [] => [[]]
  | c :: rest =>
    let r := splitComma rest
    if c.toNat = 44 then [] :: r
    else
      match r with
      | [] => [[c]]
      | g :: gs => (c :: g) :: gs

/-- Decimal digit test (codepoints 48-57), as in Python `int` parsing. -/
def isDigitC (c : Char) : Bool := 48 ≤ c.toNat && c.toNat ≤ 57

/-- Numeric value of a decimal digit character. -/
def digitVal (c : Char) : Nat := c.toNat - 48

/-- Digit-run parser for Python `int`: consumes the remaining characters
after a first digit, allowing a single underscore (codepoint 95) between
digits, and fails on anything else. -/
def goDigits (acc : Nat) : Str → Option Nat
  | [] => some acc
  | c :: rest =>
    if c.toNat = 95 then
      match rest with
      | [] => none
      | d :: rest2 =>
        if isDigitC d then goDigits (10 * acc + digitVal d) rest2 else none
    else if isDigitC c then goDigits (10 * acc + digitVal c) rest else none

/-- Nonempty digit run (with underscores between digits). -/
def parseDigits : Str → Option Nat
  | [] => none
  | c :: rest => if isDigitC c then goDigits (digitVal c) rest else none

/-- Message of the `ValueError` raised by Python `int` on a bad literal:
`invalid literal for int() with base 10: '...'` (the quotes of `repr`
are modelled as plain single quotes). -/
def intErrMsg (s : Str) : Str :=
  "invalid literal for int() with base 10: ".data ++ [squote] ++ s ++ [squote]

/-- Models Python `int(s)` on a string: strip whitespace, accept an
optional sign (codepoints 43 `+` / 45 `-`) followed by a nonempty digit
run, and raise `ValueError` otherwise. -/
def pyInt (s : Str) : Except Str Int :=
  let t := pyStrip s
  let res : Option Int :=
    match t with
    | [] => none
    | c :: rest =>
      if c.toNat = 43 then (parseDigits rest).map (fun n => (n : Int))
      else if c.toNat = 45 then (parseDigits rest).map (fun n => -(n : Int))
      else (parseDigits (c :: rest)).map (fun n => (n : Int))
  match res with
  | some v => Except.ok v
  | none => Except.error (intErrMsg s)

/-- Models the comprehension `[int(idx.strip()) - 1 for idx in
col_input.split(",")]` up to the subtraction (source line 168): the
tokens are converted left to right and the first failure raises. -/
def parse_indices : List Str → Except Str (List Int)
  | [] => Except.ok []
  | t :: ts =>
    match pyInt (pyStrip t) with
    | Except.error e => Except.error e
    | Except.ok v =>
      match parse_indices ts with
      | Except.error e => Except.error e
      | Except.ok vs => Except.ok (v :: vs)

/-- Models `[df.columns[idx] for idx in col_indices if 0 <= idx <
len(df.columns)]` (source line 169): out-of-range zero-based indices are
dropped with no message. -/
def select_text_columns (cols : List Str) (col_indices : List Int) : List Str :=
  col_indices.filterMap (fun idx =>
    if 0 ≤ idx ∧ idx < (cols.length : Int) then some (nthD [] cols idx.toNat)
    else none)

/-- Message printed at source line 172 when no valid column remains. -/
def noValidMsg : Str := "No valid columns selected.".data

/-- Message printed by the top-level handler at source line 191:
`An error occurred: {str(e)}`. -/
def genericErrorMsg (e : Str) : Str := "An error occurred: ".data ++ e

/-- Outcome of the interactive driver `main` after the CSV is loaded and
the operator has typed the column selection. -/
inductive DriverOutcome where
  | errorCaught (msg : Str)
  | noValidColumns (msg : Str)
  | done (result : DataFrame) (warnings : List Str)
deriving DecidableEq

/-- Models the body of `main` from the column-selection prompt on
(source lines 167-188): parse the comma-separated 1-based indices (a
parse failure is caught by the generic handler of lines 190-191),
subtract one, keep the in-range ones, abort with a message when none
remains, and otherwise run `process_csv_file`. -/
def mainFlow (agent : Str → Str → Str) (df : DataFrame) (col_input : Str) :
    DriverOutcome :=
  match parse_indices (splitComma col_input) with
  | Except.error e => DriverOutcome.errorCaught (genericErrorMsg e)
  | Except.ok ints =>
    let col_indices := ints.map (fun i => i - 1)
    let text_columns := select_text_columns df.cols col_indices
    if text_columns = [] then DriverOutcome.noValidColumns noValidMsg
    else
      let r := process_csv_file agent df text_columns
      DriverOutcome.done r.1 r.2

/-- Message of the `ValueError` raised at source line 13. -/
def apiKeyErrMsg : Str := "OPENAI_API_KEY environment variable is not set".data

/-- Models the module-level credential check of source lines 11-13:
`os.environ.get` yields `none` when the variable is absent, and the
`if not OPENAI_API_KEY` test also rejects the empty string. -/
def startupCheck (key : Option Str) : Except Str Str :=
  match key with
  | none => Except.error apiKeyErrMsg
  | some k => if k = [] then Except.error apiKeyErrMsg else Except.ok k

/-- Whole-program model for claim C8: the module-level key check of
lines 11-13 runs at import time, before `main` (and hence before agent
construction, CSV reading and classification) can start, so the run is
the sequencing of `startupCheck` and `mainFlow`. -/
def runProgram (key : Option Str) (agent : Str → Str → Str) (df : DataFrame)
    (col_input : Str) : Except Str DriverOutcome :=
  match startupCheck key with
  | Except.error e => Except.error e
  | Except.ok _ => Except.ok (mainFlow agent df col_input)

/-- A cell holding one of the two canonical labels. -/
abbrev isLabel (c : Cell) : Prop := c = some yesLabel ∨ c = some noLabel

/-- Number of occurrences of an element in a list. -/
def countOcc {α : Type} [DecidableEq α] (a : α) : List α → Nat
  | [] => 0
  | b :: l => (if b = a then 1 else 0) + countOcc a l

/-- First conversion error raised by the index comprehension, if any
(the comprehension evaluates tokens left to right). -/
def parse_first_err : List Str → Option Str
  | [] => none
  | t :: ts =>
    match pyInt (pyStrip t) with
    | Except.error e => some e
    | Except.ok _ => parse_first_err ts

/-! ### Library of facts about the string primitives -/

/-- Characterisation of the embedded Python substring test: `pyIn n h`
holds exactly when `n` is a contiguous infix of `h`. -/
theorem pyIn_iff (n : Str) : ∀ h : Str, pyIn n h = true ↔ n <:+: h := by
  intro h
  induction h with
  | nil => simp [pyIn, List.isEmpty_iff, List.infix_nil]
  | cons c t ih =>
    rw [ List.infix_cons_iff]
    simp only [pyIn, Bool.or_eq_true, ih, List.isPrefixOf_iff_prefix]

/-- Whitespace characters all have codepoints at most 32. -/
theorem isPySpace_le32 (c : Char) (h : isPySpace c = true) : c.toNat ≤ 32 := by
  simp only [isPySpace, Bool.or_eq_true, beq_iff_eq] at h
  omega

/-- Unfolding `Char.ofNat` at a valid codepoint. -/
theorem toNat_ofNat_valid (n : Nat) (h : n.isValidChar) :
    (Char.ofNat n).toNat = n := by
  rw [Char.ofNat, dif_pos h]
  rfl

/-- ASCII lowercasing does not create or destroy whitespace. -/
theorem isPySpace_toLower (c : Char) :
    isPySpace (Char.toLower c) = isPySpace c := by
  simp only [Char.toLower]
  split
  case isTrue h =>
    obtain ⟨h1, h2⟩ := h
    have hv : (Char.ofNat (c.toNat + 32)).toNat = c.toNat + 32 :=
      toNat_ofNat_valid _ (Or.inl (by omega))
    have hl : isPySpace (Char.ofNat (c.toNat + 32)) = false := by
      cases hb : isPySpace (Char.ofNat (c.toNat + 32)) with
      | false => rfl
      | true => have := isPySpace_le32 _ hb; omega
    have hr : isPySpace c = false := by
      cases hb : isPySpace c with
      | false => rfl
      | true => have := isPySpace_le32 _ hb; omega
    rw [hl, hr]
  case isFalse h => rfl

/-- Lowercasing commutes with dropping leading whitespace. -/
theorem lower_dropWhile (l : Str) :
    (l.dropWhile isPySpace).map Char.toLower =
      (l.map Char.toLower).dropWhile isPySpace := by
  induction l with
  | nil => rfl
  | cons a l ih =>
    cases ha : isPySpace a with
    | true =>
      rw [List.dropWhile_cons_of_pos ha, List.map_cons,
        List.dropWhile_cons_of_pos (by rw [isPySpace_toLower]; exact ha)]
      exact ih
    | false =>
      rw [List.dropWhile_cons_of_neg (by simp [ha]), List.map_cons,
        List.dropWhile_cons_of_neg (by simp [isPySpace_toLower, ha])]

/-- Lowercasing commutes with stripping. -/
theorem pyLower_pyStrip (l : Str) :
    pyLower (pyStrip l) = pyStrip (pyLower l) := by
  simp only [pyLower, pyStrip, List.map_reverse, lower_dropWhile]

/-- A nonempty needle with no whitespace characters survives the removal
of leading whitespace from the haystack. -/
theorem infix_dropWhile_of_not_space (n : Str) (hne : n ≠ [])
    (hns : ∀ c ∈ n, isPySpace c = false) :
    ∀ l : Str, n <:+: l → n <:+: l.dropWhile isPySpace := by
  intro l
  induction l with
  | nil => intro h; exact h
  | cons c t ih =>
    intro h
    cases hc : isPySpace c with
    | true =>
      rw [List.dropWhile_cons_of_pos hc]
      apply ih
      rcases List.infix_cons_iff.mp h with hp | hi
      · exfalso
        cases n with
        | nil => exact hne rfl
        | cons n0 n1 =>
          obtain ⟨rfl, -⟩ := List.cons_prefix_cons.mp hp
          rw [hns n0 (List.mem_cons_self n0 n1)] at hc
          exact Bool.noConfusion hc
      · exact hi
    | false =>
      rw [List.dropWhile_cons_of_neg (by simp [hc])]
      exact h

/-- A nonempty needle with no whitespace characters survives stripping
of the haystack. -/
theorem infix_pyStrip_of_not_space (n : Str) (hne : n ≠ [])
    (hns : ∀ c ∈ n, isPySpace c = false) (l : Str) (h : n <:+: l) :
    n <:+: pyStrip l := by
  have h1 := infix_dropWhile_of_not_space n hne hns l h
  have h2 : n.reverse <:+: (l.dropWhile isPySpace).reverse :=
    List.IsInfix.reverse h1
  have h3 := infix_dropWhile_of_not_space n.reverse
    (by simp [hne]) (by intro c hcm; exact hns c (List.mem_reverse.mp hcm))
    _ h2
  have h4 := List.IsInfix.reverse h3
  rw [List.reverse_reverse] at h4
  exact h4

/-- The stripped string is an infix of the original. -/
theorem pyStrip_infix_self (l : Str) : pyStrip l <:+: l := by
  have h1 : l.dropWhile isPySpace <:+ l := List.dropWhile_suffix _
  have h2 : (l.dropWhile isPySpace).reverse.dropWhile isPySpace <:+
      (l.dropWhile isPySpace).reverse := List.dropWhile_suffix _
  have h3 : pyStrip l <+: l.dropWhile isPySpace := by
    have := List.IsSuffix.reverse h2
    rw [List.reverse_reverse] at this
    exact this
  exact List.IsInfix.trans (List.IsPrefix.isInfix h3) (List.IsSuffix.isInfix h1)

/-- Substring tests on the lowercased reply are unchanged by the
`strip()` performed at source line 98, for needles (such as `"yes"` and
`"no"`) that are nonempty and contain no whitespace. -/
theorem pyIn_lower_strip (n l : Str) (hne : n ≠ [])
    (hns : ∀ c ∈ n, isPySpace c = false) :
    pyIn n (pyLower (pyStrip l)) = pyIn n (pyLower l) := by
  rw [pyLower_pyStrip]
  cases hb : pyIn n (pyLower l) with
  | true =>
    exact (pyIn_iff n _).mpr
      (infix_pyStrip_of_not_space n hne hns _ ((pyIn_iff n _).mp hb))
  | false =>
    cases hb2 : pyIn n (pyStrip (pyLower l)) with
    | false => rfl
    | true =>
      exfalso
      have h1 := (pyIn_iff n _).mp hb2
      have h2 := List.IsInfix.trans h1 (pyStrip_infix_self (pyLower l))
      rw [(pyIn_iff n _).mpr h2] at hb
      exact Bool.noConfusion hb

/-! ### Library of facts about the column processor -/

/-- The normaliser only ever returns the two canonical labels. -/
theorem normalize_label_cases (r : Str) :
    normalize_label r = yesLabel ∨ normalize_label r = noLabel := by
  simp only [normalize_label, normalize_result]
  split
  · left; rfl
  · split
    · right; rfl
    · right; rfl

/-- The label written back by `analyze_text` is never the empty string. -/
theorem analyze_ne_nil (agent : Str → Str → Str) (text col : Str) :
    analyze_text_label agent text col ≠ [] := by
  unfold analyze_text_label
  rcases normalize_label_cases (agent text col) with h | h <;> rw [h] <;> decide

/-- Out-of-range positional reads give the default. -/
theorem nthD_oob {α : Type} (d : α) :
    ∀ (l : List α) (i : Nat), l.length ≤ i → nthD d l i = d := by
  intro l
  induction l with
  | nil => intro i _; rfl
  | cons a l ih =>
    intro i h
    cases i with
    | zero => simp at h
    | succ i => exact ih i (by simpa using h)

/-- Writes beyond the end of a row change nothing. -/
theorem setNth_oob {α : Type} (v : α) :
    ∀ (l : List α) (j : Nat), l.length ≤ j → setNth l j v = l := by
  intro l
  induction l with
  | nil => intro j _; rfl
  | cons a l ih =>
    intro j h
    cases j with
    | zero => simp at h
    | succ j => simp only [setNth]; rw [ih j (by simpa using h)]

/-- Reading back an in-range write. -/
theorem nthD_setNth_self {α : Type} (d v : α) :
    ∀ (l : List α) (j : Nat), j < l.length → nthD d (setNth l j v) j = v := by
  intro l
  induction l with
  | nil => intro j h; simp at h
  | cons a l ih =>
    intro j h
    cases j with
    | zero => rfl
    | succ j => exact ih j (by simpa using h)

/-- A write at one position leaves every other position unchanged. -/
theorem nthD_setNth_ne {α : Type} (d v : α) :
    ∀ (l : List α) (i j : Nat), i ≠ j →
      nthD d (setNth l j v) i = nthD d l i := by
  intro l
  induction l with
  | nil => intro i j _; rfl
  | cons a l ih =>
    intro i j hij
    cases j with
    | zero =>
      cases i with
      | zero => exact absurd rfl hij
      | succ i => rfl
    | succ j =>
      cases i with
      | zero => rfl
      | succ i => exact ih i j (by omega)

/-- Positional reads commute with mapping a function that fixes the
default. -/
theorem nthD_map_fixed {α : Type} (f : α → α) (d : α) (hf : f d = d) :
    ∀ (l : List α) (i : Nat), nthD d (l.map f) i = f (nthD d l i) := by
  intro l
  induction l with
  | nil => intro i; exact hf.symm
  | cons a l ih =>
    intro i
    cases i with
    | zero => rfl
    | succ i => exact ih i

/-- `processColumn` never changes the header. -/
theorem processColumn_cols (agent : Str → Str → Str)
    (st : DataFrame × List Str) (col : Str) :
    (processColumn agent st col).1.cols = st.1.cols := by
  by_cases h : col ∈ st.1.cols <;> simp [processColumn, h]

/-- The whole column loop never changes the header. -/
theorem foldl_cols (agent : Str → Str → Str) :
    ∀ (tcs : List Str) (st : DataFrame × List Str),
    (tcs.foldl (processColumn agent) st).1.cols = st.1.cols := by
  intro tcs
  induction tcs with
  | nil => intro st; rfl
  | cons c rest ih =>
    intro st
    rw [List.foldl_cons, ih, processColumn_cols]

/-- Skipping a missing value leaves it missing. -/
theorem stepCell_none (agent : Str → Str → Str) (col : Str) :
    stepCell agent col none = none := rfl

/-- Skipping an empty string leaves it empty. -/
theorem stepCell_empty (agent : Str → Str → Str) (col : Str) :
    stepCell agent col (some []) = some [] := by
  simp [stepCell]

/-- A nonempty cell is overwritten with the normalised label. -/
theorem stepCell_some (agent : Str → Str → Str) (col s : Str) (hs : s ≠ []) :
    stepCell agent col (some s) = some (analyze_text_label agent s col) := by
  simp [stepCell, hs]

/-- A freshly produced label cell satisfies `isLabel`. -/
theorem isLabel_analyze (agent : Str → Str → Str) (s col : Str) :
    isLabel (some (analyze_text_label agent s col)) := by
  unfold analyze_text_label
  rcases normalize_label_cases (agent s col) with h | h
  · left; rw [h]
  · right; rw [h]

/-- Reprocessing a label cell yields a label cell again. -/
theorem isLabel_stepCell (agent : Str → Str → Str) (col : Str) (c : Cell)
    (h : isLabel c) : isLabel (stepCell agent col c) := by
  rcases h with h | h <;> rw [h]
  · rw [stepCell_some agent col yesLabel (by decide)]
    exact isLabel_analyze agent yesLabel col
  · rw [stepCell_some agent col noLabel (by decide)]
    exact isLabel_analyze agent noLabel col

/-- Each column iteration either leaves a given cell alone or passes it
through `stepCell` (the latter only for the processed column). -/
theorem processColumn_cell_cases (agent : Str → Str → Str)
    (st : DataFrame × List Str) (col : Str) (i j : Nat) :
    cellAt (processColumn agent st col).1 i j = cellAt st.1 i j ∨
    cellAt (processColumn agent st col).1 i j =
      stepCell agent col (cellAt st.1 i j) := by
  by_cases hm : col ∈ st.1.cols
  · simp only [processColumn, if_pos hm, cellAt]
    rw [nthD_map_fixed _ _ rfl]
    by_cases hj : j = colIndex st.1.cols col
    · rw [hj]
      by_cases hlen : colIndex st.1.cols col < (nthD [] st.1.rows i).length
      · right; rw [nthD_setNth_self _ _ _ _ hlen]
      · left; rw [setNth_oob _ _ _ (Nat.le_of_not_lt hlen)]
    · left; rw [nthD_setNth_ne _ _ _ _ _ hj]
  · left; simp [processColumn, hm]

/-- Any cell property preserved by `stepCell` is preserved by the whole
column loop. -/
theorem foldl_cell_pres (agent : Str → Str → Str) (P : Cell → Prop)
    (hP : ∀ (col : Str) (c : Cell), P c → P (stepCell agent col c)) :
    ∀ (tcs : List Str) (st : DataFrame × List Str) (i j : Nat),
    P (cellAt st.1 i j) →
    P (cellAt (tcs.foldl (processColumn agent) st).1 i j) := by
  intro tcs
  induction tcs with
  | nil => intro st i j h; exact h
  | cons c rest ih =>
    intro st i j h
    rw [List.foldl_cons]
    apply ih
    rcases processColumn_cell_cases agent st c i j with he | he <;> rw [he]
    · exact h
    · exact hP c _ h

/-- Processing an existing column rewrites a nonmissing cell of that
column with `stepCell`. -/
theorem processColumn_cell_hit (agent : Str → Str → Str)
    (st : DataFrame × List Str) (col : Str) (hm : col ∈ st.1.cols)
    (i : Nat) (s : Str)
    (hc : cellAt st.1 i (colIndex st.1.cols col) = some s) :
    cellAt (processColumn agent st col).1 i (colIndex st.1.cols col) =
      stepCell agent col (some s) := by
  have hlen : colIndex st.1.cols col < (nthD [] st.1.rows i).length := by
    by_contra hlt
    rw [cellAt, nthD_oob _ _ _ (Nat.le_of_not_lt hlt)] at hc
    exact Option.noConfusion hc
  simp only [processColumn, if_pos hm, cellAt]
  rw [nthD_map_fixed _ _ rfl, nthD_setNth_self _ _ _ _ hlen]
  rw [cellAt] at hc
  rw [hc]

/-- After the loop has processed a selected existing column, every cell
of that column that started as a nonempty string holds a canonical
label. -/
theorem foldl_cell_hit (agent : Str → Str → Str) (col : Str) :
    ∀ (tcs : List Str) (st : DataFrame × List Str) (i : Nat) (s : Str),
    col ∈ tcs → col ∈ st.1.cols →
    cellAt st.1 i (colIndex st.1.cols col) = some s → s ≠ [] →
    isLabel (cellAt (tcs.foldl (processColumn agent) st).1 i
      (colIndex st.1.cols col)) := by
  intro tcs
  induction tcs with
  | nil =>
    intro st i s hmem
    exact absurd hmem (List.not_mem_nil col)
  | cons c rest ih =>
    intro st i s hmem hcols hcell hs
    rw [List.foldl_cons]
    by_cases hceq : c = col
    · subst hceq
      have h1 := processColumn_cell_hit agent st c hcols i s hcell
      rw [stepCell_some agent c s hs] at h1
      exact foldl_cell_pres agent isLabel (isLabel_stepCell agent) rest
        (processColumn agent st c) i (colIndex st.1.cols c)
        (by rw [h1]; exact isLabel_analyze agent s c)
    · have hmem2 : col ∈ rest := by
        rcases List.mem_cons.mp hmem with h | h
        · exact absurd h.symm hceq
        · exact h
      have hcols2 : col ∈ (processColumn agent st c).1.cols := by
        rw [processColumn_cols]; exact hcols
      have hidx : colIndex (processColumn agent st c).1.cols col =
          colIndex st.1.cols col := by rw [processColumn_cols]
      rcases processColumn_cell_cases agent st c i (colIndex st.1.cols col)
        with he | he
      · have := ih (processColumn agent st c) i s hmem2 hcols2
          (by rw [hidx, he]; exact hcell) hs
        rw [hidx] at this
        exact this
      · rw [hcell, stepCell_some agent c s hs] at he
        have := ih (processColumn agent st c) i (analyze_text_label agent s c)
          hmem2 hcols2 (by rw [hidx, he]) (analyze_ne_nil agent s c)
        rw [hidx] at this
        exact this

/-! ### Warnings, skipped columns, selection and parsing -/

/-- One column iteration keeps every warning already printed. -/
theorem processColumn_warn_mono (agent : Str → Str → Str)
    (st : DataFrame × List Str) (col w : Str) (h : w ∈ st.2) :
    w ∈ (processColumn agent st col).2 := by
  by_cases hm : col ∈ st.1.cols
  · simpa [processColumn, hm] using h
  · simp only [processColumn, if_neg hm]
    exact List.mem_append_left _ h

/-- The column loop keeps every warning already printed. -/
theorem foldl_warn_mono (agent : Str → Str → Str) :
    ∀ (tcs : List Str) (st : DataFrame × List Str) (w : Str), w ∈ st.2 →
    w ∈ (tcs.foldl (processColumn agent) st).2 := by
  intro tcs
  induction tcs with
  | nil => intro st w h; exact h
  | cons c rest ih =>
    intro st w h
    rw [List.foldl_cons]
    exact ih _ w (processColumn_warn_mono agent st c w h)

/-- A selected column name absent from the header ends up warned about. -/
theorem foldl_missing_warn (agent : Str → Str → Str) (col : Str) :
    ∀ (tcs : List Str) (st : DataFrame × List Str), col ∈ tcs →
    col ∉ st.1.cols →
    missingColWarning col ∈ (tcs.foldl (processColumn agent) st).2 := by
  intro tcs
  induction tcs with
  | nil => intro st h; exact absurd h (List.not_mem_nil col)
  | cons c rest ih =>
    intro st hmem hnc
    rw [List.foldl_cons]
    by_cases hceq : c = col
    · subst hceq
      apply foldl_warn_mono
      simp only [processColumn, if_neg hnc]
      exact List.mem_append_right _ (List.mem_singleton.mpr rfl)
    · have hmem2 : col ∈ rest := by
        rcases List.mem_cons.mp hmem with h | h
        · exact absurd h.symm hceq
        · exact h
      apply ih _ hmem2
      rw [processColumn_cols]
      exact hnc

/-- Processing a column missing from the header leaves the dataframe
unchanged. -/
theorem processColumn_skip (agent : Str → Str → Str)
    (st : DataFrame × List Str) (col : Str) (hm : col ∉ st.1.cols) :
    (processColumn agent st col).1 = st.1 := by
  simp [processColumn, hm]

/-- The dataframe produced by a column iteration depends only on the
incoming dataframe, not on the warnings accumulated so far. -/
theorem processColumn_fst_congr (agent : Str → Str → Str) (col : Str)
    (st st' : DataFrame × List Str) (h : st.1 = st'.1) :
    (processColumn agent st col).1 = (processColumn agent st' col).1 := by
  by_cases hm : col ∈ st.1.cols
  · simp only [processColumn, if_pos hm, if_pos (h ▸ hm), h]
  · rw [processColumn_skip agent st col hm,
      processColumn_skip agent st' col (h ▸ hm)]
    exact h

/-- Dropping every occurrence of a column name that is missing from the
header does not change the resulting dataframe. -/
theorem foldl_fst_filter (agent : Str → Str → Str) (col : Str) :
    ∀ (tcs : List Str) (st st' : DataFrame × List Str), st.1 = st'.1 →
    col ∉ st.1.cols →
    (tcs.foldl (processColumn agent) st).1 =
      ((tcs.filter (fun c => decide (c ≠ col))).foldl
        (processColumn agent) st').1 := by
  intro tcs
  induction tcs with
  | nil => intro st st' h _; exact h
  | cons c rest ih =>
    intro st st' h hnc
    by_cases hceq : c = col
    · subst hceq
      rw [List.foldl_cons, List.filter_cons_of_neg (by simp)]
      exact ih (processColumn agent st c) st'
        (by rw [processColumn_skip agent st c hnc]; exact h)
        (by rw [processColumn_skip agent st c hnc]; exact hnc)
    · rw [List.foldl_cons, List.filter_cons_of_pos (by simp [hceq]),
        List.foldl_cons]
      exact ih (processColumn agent st c) (processColumn agent st' c)
        (processColumn_fst_congr agent c st st' h)
        (by rw [processColumn_cols]; exact hnc)

/-- In-range positional reads produce members of the list. -/
theorem nthD_mem {α : Type} (d : α) :
    ∀ (l : List α) (i : Nat), i < l.length → nthD d l i ∈ l := by
  intro l
  induction l with
  | nil => intro i h; simp at h
  | cons a l ih =>
    intro i h
    cases i with
    | zero => exact List.mem_cons_self a l
    | succ i => exact List.mem_cons_of_mem a (ih i (by simpa using h))

/-- On a duplicate-free header, positional reads are injective. -/
theorem nodup_nthD_inj {α : Type} (d : α) :
    ∀ (l : List α), l.Nodup → ∀ (a b : Nat), a < l.length → b < l.length →
    nthD d l a = nthD d l b → a = b := by
  intro l
  induction l with
  | nil => intro _ a b ha; simp at ha
  | cons c rest ih =>
    intro hnd a b ha hb heq
    have hnd2 := List.nodup_cons.mp hnd
    cases a with
    | zero =>
      cases b with
      | zero => rfl
      | succ b =>
        exfalso
        have hmm : nthD d rest b ∈ rest := nthD_mem d rest b (by simpa using hb)
        have heq2 : c = nthD d rest b := heq
        rw [← heq2] at hmm
        exact hnd2.1 hmm
    | succ a =>
      cases b with
      | zero =>
        exfalso
        have hmm : nthD d rest a ∈ rest := nthD_mem d rest a (by simpa using ha)
        have heq2 : nthD d rest a = c := heq
        rw [heq2] at hmm
        exact hnd2.1 hmm
      | succ b =>
        have := ih hnd2.2 a b (by simpa using ha) (by simpa using hb) heq
        omega

/-- Unfolding the selection comprehension at an in-range index. -/
theorem select_cons_pos (cols : List Str) (j : Int) (rest : List Int)
    (hv : 0 ≤ j ∧ j < (cols.length : Int)) :
    select_text_columns cols (j :: rest) =
      nthD [] cols j.toNat :: select_text_columns cols rest := by
  simp only [select_text_columns, List.filterMap_cons, if_pos hv]

/-- Unfolding the selection comprehension at an out-of-range index. -/
theorem select_cons_neg (cols : List Str) (j : Int) (rest : List Int)
    (hv : ¬ (0 ≤ j ∧ j < (cols.length : Int))) :
    select_text_columns cols (j :: rest) = select_text_columns cols rest := by
  simp only [select_text_columns, List.filterMap_cons, if_neg hv]

/-- The selection comprehension ignores out-of-range indices entirely:
selecting from a list of indices equals selecting from its in-range
sublist. -/
theorem select_filter (cols : List Str) :
    ∀ idcs : List Int,
    select_text_columns cols idcs =
      select_text_columns cols
        (idcs.filter (fun i => decide (0 ≤ i ∧ i < (cols.length : Int)))) := by
  intro idcs
  induction idcs with
  | nil => rfl
  | cons j rest ih =>
    by_cases hv : 0 ≤ j ∧ j < (cols.length : Int)
    · rw [List.filter_cons_of_pos (by simpa using hv),
        select_cons_pos cols j rest hv, select_cons_pos cols j _ hv, ih]
    · rw [List.filter_cons_of_neg (by simpa using hv),
        select_cons_neg cols j rest hv, ih]

/-- Multiplicity of a selected column name: on a duplicate-free header,
a valid zero-based index contributes its name once per occurrence. -/
theorem countOcc_select (cols : List Str) (hnd : cols.Nodup) (idx : Int)
    (h0 : 0 ≤ idx) (hlen : idx < (cols.length : Int)) :
    ∀ idcs : List Int,
    countOcc (nthD [] cols idx.toNat) (select_text_columns cols idcs) =
      countOcc idx idcs := by
  intro idcs
  induction idcs with
  | nil => rfl
  | cons j rest ih =>
    by_cases hv : 0 ≤ j ∧ j < (cols.length : Int)
    · rw [select_cons_pos cols j rest hv]
      simp only [countOcc, ih]
      congr 1
      by_cases hj : j = idx
      · subst hj
        rw [if_pos rfl, if_pos rfl]
      · rw [if_neg hj, if_neg ?hne]
        case hne =>
          intro heq
          apply hj
          have := nodup_nthD_inj [] cols hnd j.toNat idx.toNat
            (by omega) (by omega) heq
          omega
    · rw [select_cons_neg cols j rest hv]
      simp only [countOcc, ih]
      have hj : ¬ j = idx := by
        intro heq
        subst heq
        exact hv ⟨h0, hlen⟩
      rw [if_neg hj]
      omega

/-- A token that fails integer conversion makes the whole comprehension
raise (left to right, so some error is raised). -/
theorem parse_err_of_mem :
    ∀ (ts : List Str) (t e : Str), t ∈ ts →
    pyInt (pyStrip t) = Except.error e →
    ∃ e2, parse_indices ts = Except.error e2 := by
  intro ts
  induction ts with
  | nil => intro t e h; exact absurd h (List.not_mem_nil t)
  | cons t0 rest ih =>
    intro t e hmem herr
    cases h0 : pyInt (pyStrip t0) with
    | error e0 => exact ⟨e0, by simp [parse_indices, h0]⟩
    | ok v =>
      rcases List.mem_cons.mp hmem with rfl | hm
      · rw [h0] at herr
        exact Except.noConfusion herr
      · obtain ⟨e2, h2⟩ := ih t e hm herr
        exact ⟨e2, by simp [parse_indices, h0, h2]⟩

/-- A failing token guarantees the comprehension raises some error. -/
theorem parse_first_err_isSome_of_mem :
    ∀ (ts : List Str) (t e : Str), t ∈ ts →
    pyInt (pyStrip t) = Except.error e →
    (parse_first_err ts).isSome = true := by
  intro ts
  induction ts with
  | nil => intro t e h; exact absurd h (List.not_mem_nil t)
  | cons t0 rest ih =>
    intro t e hmem herr
    cases h0 : pyInt (pyStrip t0) with
    | error e0 => simp [parse_first_err, h0]
    | ok v =>
      rcases List.mem_cons.mp hmem with rfl | hm
      · rw [h0] at herr
        exact Except.noConfusion herr
      · simp only [parse_first_err, h0]
        exact ih t e hm herr

/-- The comprehension raises exactly the first conversion error. -/
theorem parse_indices_of_first_err :
    ∀ (ts : List Str) (e : Str), parse_first_err ts = some e →
    parse_indices ts = Except.error e := by
  intro ts
  induction ts with
  | nil => intro e h; exact Option.noConfusion h
  | cons t0 rest ih =>
    intro e h
    cases h0 : pyInt (pyStrip t0) with
    | error e0 =>
      rw [parse_first_err, h0] at h
      rw [parse_indices, h0]
      exact congrArg Except.error (Option.some.inj h).symm ▸ rfl
    | ok v =>
      rw [parse_first_err, h0] at h
      rw [parse_indices, h0, ih e h]

/-! ### The claims -/

/-- C1 counterexample: for the agent reply `"Unclear, cannot determine."`
the normaliser emits no warning at all, contradicting the claimed
warning: the reply contains the substring `"no"` (inside `"cannot"`),
so the silent `elif` branch of line 101 fires. -/
theorem unclear_scenario_no_warning_cex :
    (normalize_result "Unclear, cannot determine.".data).2 = none ∧
    pyIn "no".data (pyLower "Unclear, cannot determine.".data) = true := by
  decide

/-- C1 (amended): for the agent reply `"Unclear, cannot determine."` the
normaliser returns the canonical label `No` silently, with no warning,
because the reply contains the substring `"no"` inside `"cannot"`. -/
theorem unclear_scenario_normalizes_silently :
    normalize_result "Unclear, cannot determine.".data = (noLabel, none) := by
  decide

/-- C2: every agent reply containing the substring `"yes"` in any letter
case and at any position is normalised to the canonical label `Yes`,
regardless of any occurrence of `"no"`. -/
theorem yes_substring_normalizes_to_yes (reply : Str)
    (h : pyIn "yes".data (pyLower reply) = true) :
    normalize_label reply = yesLabel := by
  have ht := pyIn_lower_strip "yes".data reply (by decide) (by decide)
  rw [h] at ht
  simp [normalize_label, normalize_result, ht]

/-- C2 witness: a reply containing both substrings, with `"no"` first in
the text, still normalises to `Yes`. -/
theorem yes_substring_normalizes_to_yes_witness :
    pyIn "yes".data (pyLower "No, but YES overall.".data) = true ∧
    normalize_label "No, but YES overall.".data = yesLabel :=
  ⟨by decide, yes_substring_normalizes_to_yes "No, but YES overall.".data
    (by decide)⟩

/-- C3: every agent reply containing the substring `"no"` but not
`"yes"` (case-insensitively) is normalised to the canonical label `No`. -/
theorem no_without_yes_normalizes_to_no (reply : Str)
    (hno : pyIn "no".data (pyLower reply) = true)
    (hyes : pyIn "yes".data (pyLower reply) = false) :
    normalize_label reply = noLabel := by
  have htn := pyIn_lower_strip "no".data reply (by decide) (by decide)
  have hty := pyIn_lower_strip "yes".data reply (by decide) (by decide)
  rw [hno] at htn
  rw [hyes] at hty
  simp [normalize_label, normalize_result, htn, hty]

/-- C3 witness: the reply `"Not compliant."` contains `"no"` (inside
`"Not"`, case-insensitively) and no `"yes"`, and normalises to `No`. -/
theorem no_without_yes_normalizes_to_no_witness :
    pyIn "no".data (pyLower "Not compliant.".data) = true ∧
    pyIn "yes".data (pyLower "Not compliant.".data) = false ∧
    normalize_label "Not compliant.".data = noLabel :=
  ⟨by decide, by decide,
    no_without_yes_normalizes_to_no "Not compliant.".data (by decide)
      (by decide)⟩

/-- C4 counterexample: the reply `" unclear"` (leading space) contains
neither substring, yet the emitted warning does not contain the original
reply text: line 98 strips the reply before it is interpolated into the
warning, so only the stripped text `"unclear"` appears. -/
theorem warning_lacks_padded_reply_cex :
    pyIn "yes".data (pyLower " unclear".data) = false ∧
    pyIn "no".data (pyLower " unclear".data) = false ∧
    Option.map (pyIn " unclear".data) (normalize_result " unclear".data).2 =
      some false := by
  decide

/-- C4 (amended): for every agent reply containing neither `"yes"` nor
`"no"` (case-insensitively), the normaliser returns `No` and emits a
warning containing the whitespace-stripped reply text (hence the
original text whenever the reply has no leading or trailing
whitespace); moreover a warning is emitted in exactly this case and no
other. -/
theorem neither_substring_defaults_with_warning (reply : Str) :
    ((normalize_result reply).2.isSome =
      (!pyIn "yes".data (pyLower reply) && !pyIn "no".data (pyLower reply))) ∧
    (pyIn "yes".data (pyLower reply) = false →
      pyIn "no".data (pyLower reply) = false →
      normalize_result reply =
        (noLabel, some (unclearWarning (pyStrip reply))) ∧
      pyIn (pyStrip reply) (unclearWarning (pyStrip reply)) = true) := by
  have hty := pyIn_lower_strip "yes".data reply (by decide) (by decide)
  have htn := pyIn_lower_strip "no".data reply (by decide) (by decide)
  constructor
  · rw [← hty, ← htn]
    simp only [normalize_result]
    cases h1 : pyIn "yes".data (pyLower (pyStrip reply)) <;>
      cases h2 : pyIn "no".data (pyLower (pyStrip reply)) <;> simp [h1, h2]
  · intro hy hn
    rw [hy] at hty
    rw [hn] at htn
    constructor
    · simp [normalize_result, hty, htn]
    · apply (pyIn_iff _ _).mpr
      exact ⟨"Warning: Unclear result from agent: ".data ++ [squote],
        [squote] ++ ". Defaulting to ".data ++ [squote] ++ noLabel ++ [squote],
        by simp [unclearWarning, List.append_assoc]⟩

/-- C4 witness: concrete unclear reply `"@@@"`. -/
theorem neither_substring_defaults_with_warning_witness :
    normalize_result "@@@".data =
      (noLabel, some (unclearWarning (pyStrip "@@@".data))) ∧
    pyIn (pyStrip "@@@".data) (unclearWarning (pyStrip "@@@".data)) = true :=
  (neither_substring_defaults_with_warning "@@@".data).2 (by decide) (by decide)

/-- C5: for every dataframe and every selected column present in the
header, after `process_csv_file` every cell of that column that was
missing or the empty string is unchanged, and every other cell of that
column holds exactly `Yes` or `No`. -/
theorem processed_column_cell_invariant (agent : Str → Str → Str)
    (df : DataFrame) (tcs : List Str) (col : Str)
    (hmem : col ∈ tcs) (hcols : col ∈ df.cols) (i : Nat) :
    (cellAt df i (colIndex df.cols col) = none →
      cellAt (process_csv_file agent df tcs).1 i (colIndex df.cols col) =
        none) ∧
    (cellAt df i (colIndex df.cols col) = some [] →
      cellAt (process_csv_file agent df tcs).1 i (colIndex df.cols col) =
        some []) ∧
    (∀ s : Str, cellAt df i (colIndex df.cols col) = some s → s ≠ [] →
      cellAt (process_csv_file agent df tcs).1 i (colIndex df.cols col) =
          some yesLabel ∨
        cellAt (process_csv_file agent df tcs).1 i (colIndex df.cols col) =
          some noLabel) := by
  unfold process_csv_file
  refine ⟨?_, ?_, ?_⟩
  · intro h
    exact foldl_cell_pres agent (fun c => c = none)
      (by intro col2 c hc; rw [hc]; rfl) tcs (df, []) i _ h
  · intro h
    exact foldl_cell_pres agent (fun c => c = some [])
      (by intro col2 c hc; rw [hc]; exact stepCell_empty agent col2)
      tcs (df, []) i _ h
  · intro s hcell hs
    exact foldl_cell_hit agent col tcs (df, []) i s hmem hcols hcell hs

/-- C5 witness: one column, three rows (text, missing, empty string),
an agent that always replies `"Yes"`. -/
theorem processed_column_cell_invariant_witness :
    (cellAt (process_csv_file (fun _ _ => "Yes".data)
        ⟨["risk".data], [[some "text".data], [none], [some []]]⟩
        ["risk".data]).1 1
        (colIndex ["risk".data] "risk".data) = none) ∧
    (cellAt (process_csv_file (fun _ _ => "Yes".data)
        ⟨["risk".data], [[some "text".data], [none], [some []]]⟩
        ["risk".data]).1 2
        (colIndex ["risk".data] "risk".data) = some []) ∧
    (cellAt (process_csv_file (fun _ _ => "Yes".data)
        ⟨["risk".data], [[some "text".data], [none], [some []]]⟩
        ["risk".data]).1 0
        (colIndex ["risk".data] "risk".data) = some yesLabel ∨
      cellAt (process_csv_file (fun _ _ => "Yes".data)
        ⟨["risk".data], [[some "text".data], [none], [some []]]⟩
        ["risk".data]).1 0
        (colIndex ["risk".data] "risk".data) = some noLabel) :=
  ⟨(processed_column_cell_invariant (fun _ _ => "Yes".data)
      ⟨["risk".data], [[some "text".data], [none], [some []]]⟩
      ["risk".data] "risk".data (by decide) (by decide) 1).1 (by decide),
   (processed_column_cell_invariant (fun _ _ => "Yes".data)
      ⟨["risk".data], [[some "text".data], [none], [some []]]⟩
      ["risk".data] "risk".data (by decide) (by decide) 2).2.1 (by decide),
   (processed_column_cell_invariant (fun _ _ => "Yes".data)
      ⟨["risk".data], [[some "text".data], [none], [some []]]⟩
      ["risk".data] "risk".data (by decide) (by decide) 0).2.2 "text".data
      (by decide) (by decide)⟩

/-- C6: a selected column name absent from the header is warned about
by name, contributes nothing to the resulting dataframe (the result is
the one obtained after dropping every occurrence of that name from the
selection), and the remaining selected columns are still processed. -/
theorem missing_column_warned_and_skipped (agent : Str → Str → Str)
    (df : DataFrame) (tcs : List Str) (col : Str)
    (hmem : col ∈ tcs) (hnc : col ∉ df.cols) :
    missingColWarning col ∈ (process_csv_file agent df tcs).2 ∧
    pyIn col (missingColWarning col) = true ∧
    (process_csv_file agent df tcs).1 =
      (process_csv_file agent df
        (tcs.filter (fun c => decide (c ≠ col)))).1 := by
  refine ⟨?_, ?_, ?_⟩
  · exact foldl_missing_warn agent col tcs (df, []) hmem hnc
  · apply (pyIn_iff _ _).mpr
    exact ⟨"Warning: Column ".data ++ [squote],
      [squote] ++ " not found in CSV file.".data,
      by simp [missingColWarning, List.append_assoc]⟩
  · exact foldl_fst_filter agent col tcs (df, []) (df, []) rfl hnc

/-- C6 witness: selection `["zz", "a"]` over a header `["a"]`. -/
theorem missing_column_warned_and_skipped_witness :
    missingColWarning "zz".data ∈
      (process_csv_file (fun _ _ => "Yes".data)
        ⟨["a".data], [[some "x".data]]⟩ ["zz".data, "a".data]).2 ∧
    pyIn "zz".data (missingColWarning "zz".data) = true ∧
    (process_csv_file (fun _ _ => "Yes".data)
        ⟨["a".data], [[some "x".data]]⟩ ["zz".data, "a".data]).1 =
      (process_csv_file (fun _ _ => "Yes".data)
        ⟨["a".data], [[some "x".data]]⟩
        (["zz".data, "a".data].filter
          (fun c => decide (c ≠ "zz".data)))).1 :=
  missing_column_warned_and_skipped (fun _ _ => "Yes".data)
    ⟨["a".data], [[some "x".data]]⟩ ["zz".data, "a".data] "zz".data
    (by decide) (by decide)

/-- C7: for an operator input whose tokens all convert to integers, the
driver silently keeps exactly the 1-based indices that are in range
(the selection over all entered indices equals the selection over only
the in-range ones), and when no valid index remains the flow stops with
the `No valid columns selected.` message and produces no dataframe. -/
theorem out_of_range_indices_dropped_silently (agent : Str → Str → Str)
    (df : DataFrame) (col_input : Str) (ints : List Int)
    (hparse : parse_indices (splitComma col_input) = Except.ok ints) :
    (select_text_columns df.cols (ints.map (fun i => i - 1)) =
      select_text_columns df.cols
        ((ints.filter
          (fun i => decide (1 ≤ i ∧ i ≤ (df.cols.length : Int)))).map
            (fun i => i - 1))) ∧
    (select_text_columns df.cols (ints.map (fun i => i - 1)) = [] →
      mainFlow agent df col_input = DriverOutcome.noValidColumns noValidMsg) := by
  constructor
  · rw [select_filter df.cols (ints.map (fun i => i - 1)), List.filter_map]
    congr 1
    refine congrArg (List.map (fun i => i - 1)) (List.filter_congr ?_)
    intro a _
    simp only [Function.comp]
    rw [decide_eq_decide]
    omega
  · intro hsel
    simp [mainFlow, hparse, hsel]

/-- C7 witness: input `"7, 0"` against a one-column dataframe: both
1-based indices are out of range, so the selection is empty and the
driver aborts with the message. -/
theorem out_of_range_indices_dropped_silently_witness :
    mainFlow (fun _ _ => "Yes".data) ⟨["a".data], [[some "x".data]]⟩
        "7, 0".data =
      DriverOutcome.noValidColumns noValidMsg :=
  (out_of_range_indices_dropped_silently (fun _ _ => "Yes".data)
    ⟨["a".data], [[some "x".data]]⟩ "7, 0".data [7, 0] (by rfl)).2 (by decide)

/-- C8: when the API-key environment variable is absent or empty, the
program run is exactly the fatal `ValueError`, and no driver work (and
in particular no agent construction, file read or classification) is
ever reached. -/
theorem missing_api_key_aborts_startup (key : Option Str)
    (agent : Str → Str → Str) (df : DataFrame) (col_input : Str)
    (h : key = none ∨ key = some []) :
    runProgram key agent df col_input = Except.error apiKeyErrMsg := by
  rcases h with rfl | rfl
  · rfl
  · simp [runProgram, startupCheck]

/-- C8 witness: absent key. -/
theorem missing_api_key_aborts_startup_witness :
    runProgram none (fun _ _ => "Yes".data) ⟨["a".data], [[some "x".data]]⟩
        "1".data =
      Except.error apiKeyErrMsg :=
  missing_api_key_aborts_startup none (fun _ _ => "Yes".data)
    ⟨["a".data], [[some "x".data]]⟩ "1".data (Or.inl rfl)

/-- C9: a selection token that does not convert to an integer (the empty
input included) is not filtered: the comprehension raises, the generic
top-level handler reports `An error occurred: ...`, and the flow ends in
the caught-error outcome, which carries no processed dataframe. -/
theorem unparseable_token_hits_generic_handler (agent : Str → Str → Str)
    (df : DataFrame) (col_input t e : Str)
    (hmem : t ∈ splitComma col_input)
    (herr : pyInt (pyStrip t) = Except.error e) :
    (parse_first_err (splitComma col_input)).isSome = true ∧
    mainFlow agent df col_input =
      DriverOutcome.errorCaught
        (genericErrorMsg
          ((parse_first_err (splitComma col_input)).getD [])) := by
  have hs := parse_first_err_isSome_of_mem (splitComma col_input) t e hmem herr
  refine ⟨hs, ?_⟩
  obtain ⟨e2, he2⟩ := Option.isSome_iff_exists.mp hs
  have hp := parse_indices_of_first_err (splitComma col_input) e2 he2
  rw [he2]
  simp [mainFlow, hp]

/-- C9 witness: the empty operator input, whose single token `""` fails
integer conversion. -/
theorem unparseable_token_hits_generic_handler_witness :
    (parse_first_err (splitComma [])).isSome = true ∧
    mainFlow (fun _ _ => "Yes".data) ⟨["a".data], [[some "x".data]]⟩ [] =
      DriverOutcome.errorCaught
        (genericErrorMsg ((parse_first_err (splitComma [])).getD [])) :=
  unparseable_token_hits_generic_handler (fun _ _ => "Yes".data)
    ⟨["a".data], [[some "x".data]]⟩ [] [] (intErrMsg []) (by decide) rfl

/-- C10: the driver does not deduplicate column indices: on a
duplicate-free header, a valid index contributes its column name to the
selection once per occurrence in the entered list, and processing the
same existing column twice re-submits to the classifier the label
written by the first pass (the final cell holds the label of the label). -/
theorem duplicate_index_not_deduplicated (agent : Str → Str → Str)
    (df : DataFrame) (hnd : df.cols.Nodup) (idx : Int) (h0 : 0 ≤ idx)
    (hlen : idx < (df.cols.length : Int)) (idcs : List Int) (col : Str)
    (hcol : col = nthD [] df.cols idx.toNat) (i : Nat) (s : Str)
    (hcell : cellAt df i (colIndex df.cols col) = some s) (hs : s ≠ []) :
    countOcc col (select_text_columns df.cols idcs) = countOcc idx idcs ∧
    cellAt (process_csv_file agent df [col, col]).1 i
        (colIndex df.cols col) =
      some (analyze_text_label agent (analyze_text_label agent s col) col) := by
  constructor
  · rw [hcol]
    exact countOcc_select df.cols hnd idx h0 hlen idcs
  · have hmem : col ∈ df.cols := by
      rw [hcol]
      exact nthD_mem [] df.cols idx.toNat (by omega)
    simp only [process_csv_file, List.foldl_cons, List.foldl_nil]
    have h1 := processColumn_cell_hit agent (df, []) col hmem i s hcell
    rw [stepCell_some agent col s hs] at h1
    have hcols1 : col ∈ (processColumn agent (df, []) col).1.cols := by
      rw [processColumn_cols]
      exact hmem
    have hidx1 : colIndex (processColumn agent (df, []) col).1.cols col =
        colIndex df.cols col := by rw [processColumn_cols]
    have h2 := processColumn_cell_hit agent (processColumn agent (df, []) col)
      col hcols1 i (analyze_text_label agent s col) (by rw [hidx1]; exact h1)
    rw [stepCell_some agent col _ (analyze_ne_nil agent s col), hidx1] at h2
    exact h2

/-- C10 witness: index 1 entered twice (with an out-of-range 3 between)
over a two-column header; the agent answers `"Yes"` to the original
text and an unclear reply to the label `"Yes"`, so the second pass
flips the cell to `No`. -/
theorem duplicate_index_not_deduplicated_witness :
    countOcc "a".data
        (select_text_columns ["a".data, "b".data] [0, 2, 0]) =
      countOcc 0 [0, 2, 0] ∧
    cellAt (process_csv_file
        (fun s _ => if s = "t".data then "Yes".data else "unclear reply".data)
        ⟨["a".data, "b".data], [[some "t".data, some "u".data]]⟩
        ["a".data, "a".data]).1 0
        (colIndex ["a".data, "b".data] "a".data) =
      some (analyze_text_label
        (fun s _ => if s = "t".data then "Yes".data else "unclear reply".data)
        (analyze_text_label
          (fun s _ => if s = "t".data then "Yes".data else "unclear reply".data)
          "t".data "a".data) "a".data) :=
  duplicate_index_not_deduplicated
    (fun s _ => if s = "t".data then "Yes".data else "unclear reply".data)
    ⟨["a".data, "b".data], [[some "t".data, some "u".data]]⟩
    (by decide) 0 (by decide) (by decide) [0, 2, 0] "a".data rfl 0 "t".data
    (by decide) (by decide)
